import Mathlib

/-!
Shallow embedding of `build-router.py`, a utility that scans a directory
tree for `SKILL.md` descriptor files, validates their metadata, and renders
an aggregate index.  Python strings are modelled as Lean `String`s (with
most character-level work done on `List Char`), the filesystem is modelled
by an explicit tree (`FsNode`), Python `dict`s by insertion-ordered
association lists, and logging / printing side channels by explicitly
returned lists of messages.
-/

/-- The set of characters accepted by Python's `str.isspace` (and by the
regex class `\s` on `str` patterns); used for `.strip()` and for `\s*`. -/
def isPySpace (c : Char) : Bool :=
  [' ', '\t', '\n', '\r', '\x0b', '\x0c',
   '\x1c', '\x1d', '\x1e', '\x1f', '\u0085', '\u00a0', '\u1680',
   '\u2000', '\u2001', '\u2002', '\u2003', '\u2004', '\u2005', '\u2006',
   '\u2007', '\u2008', '\u2009', '\u200a',
   '\u2028', '\u2029', '\u202f', '\u205f', '\u3000'].contains c

/-- Line-boundary characters of Python's `str.splitlines`. -/
def isLineBreak (c : Char) : Bool :=
  ['\n', '\r', '\x0b', '\x0c', '\x1c', '\x1d', '\x1e',
   '\u0085', '\u2028', '\u2029'].contains c

/-- Worker for `pySplitlines`; `cur` holds the current line reversed. -/
def splitlinesGo (cur : List Char) : List Char → List (List Char)
  | [] => [cur.reverse]
  | '\r' :: '\n' :: rest =>
      cur.reverse :: (if rest.isEmpty then [] else splitlinesGo [] rest)
  | c :: rest =>
      if isLineBreak c then
        cur.reverse :: (if rest.isEmpty then [] else splitlinesGo [] rest)
      else splitlinesGo (c :: cur) rest

/-- Python's `str.splitlines` (`"a\n"` gives `["a"]`, `""` gives `[]`). -/
def pySplitlines (l : List Char) : List (List Char) :=
  if l.isEmpty then [] else splitlinesGo [] l

/-- Python's `str.strip()` (trim `isspace` characters at both ends). -/
def pyStrip (l : List Char) : List Char :=
  ((l.dropWhile isPySpace).reverse.dropWhile isPySpace).reverse

/-- `leadsWith pat l` is true when `pat` occurs at the very front of `l`. -/
def leadsWith : List Char → List Char → Bool
  | [], _ => true
  | _ :: _, [] => false
  | p :: ps, c :: cs => p == c && leadsWith ps cs

/-- Index of the first occurrence of `pat` inside `l` (regex-style search). -/
def occIdx (pat : List Char) : List Char → Option Nat
  | [] => if leadsWith pat [] then some 0 else none
  | c :: rest =>
      if leadsWith pat (c :: rest) then some 0
      else (occIdx pat rest).map (· + 1)

/-- Python `dict` assignment `d[k] = v`: replace in place, else append. -/
def dictInsert {α : Type} : List (String × α) → String → α → List (String × α)
  | [], k, v => [(k, v)]
  | (k₀, v₀) :: rest, k, v =>
      if k₀ = k then (k₀, v) :: rest else (k₀, v₀) :: dictInsert rest k v

/-- Python `dict.get k`. -/
def dictGet {α : Type} (d : List (String × α)) (k : String) : Option α :=
  (d.find? (fun e => e.1 == k)).map (·.2)

/-- The literal `---` of the frontmatter delimiter. -/
def dashes3 : List Char := ['-', '-', '-']

/-- The literal `\n---` that closes the frontmatter block in the regex. -/
def nlDashes : List Char := ['\n', '-', '-', '-']

/-- One attempt of the regex `^---\s*\n(.*?)\n---` with the `\s*` group
consuming exactly `k` characters of `rest` (the text after `---`): the
literal `\n` must match `rest[k]`, and the lazy group then ends at the
first occurrence of `\n---` strictly after it. -/
def tryAt (rest : List Char) (k : Nat) : Option (List Char) :=
  if rest[k]? = some '\n' then
    match occIdx nlDashes (rest.drop (k + 1)) with
    | some j => some ((rest.drop (k + 1)).take j)
    | none => none
  else none

/-- Greedy backtracking of `\s*`: try the longest whitespace run first,
then shorter ones.  `fmMatch` always calls this with the length of the
maximal whitespace run, so every tried `k` is a valid `\s*` match. -/
def tryK (rest : List Char) : Nat → Option (List Char)
  | 0 => tryAt rest 0
  | Nat.succ k =>
      match tryAt rest (k + 1) with
      | some body => some body
      | none => tryK rest k

/-- `re.match(r"^---\s*\n(.*?)\n---", content, re.DOTALL)`, returning the
captured group (the frontmatter body) when the match succeeds. -/
def fmMatch (content : List Char) : Option (List Char) :=
  if leadsWith dashes3 content then
    tryK (content.drop 3) ((content.drop 3).takeWhile isPySpace).length
  else none

/-- Body of the parsing loop of `parse_frontmatter`: a line containing a
colon is split at its first colon, both halves stripped, and stored. -/
def fmLineStep (fm : List (String × String)) (line : List Char) :
    List (String × String) :=
  if line.contains ':' then
    dictInsert fm
      (pyStrip (line.takeWhile (fun c => c != ':'))).asString
      (pyStrip ((line.dropWhile (fun c => c != ':')).drop 1)).asString
  else fm

/-- The `for line in match.group(1).splitlines()` loop of
`parse_frontmatter`. -/
def frontmatterOfBody (body : List Char) : List (String × String) :=
  (pySplitlines body).foldl fmLineStep []

/-- `parse_frontmatter` from `build-router.py`. -/
def parse_frontmatter (content : String) : List (String × String) :=
  match fmMatch content.data with
  | none => []
  | some body => frontmatterOfBody body

/-- A filesystem node: either a regular file with its text content, or a
directory whose entries are `(name, node)` pairs. -/
inductive FsNode : Type where
  | file (content : String) : FsNode
  | dir (children : List (String × FsNode)) : FsNode

/-- Path lookup one level down: `children / name`. -/
def lookupChild (children : List (String × FsNode)) (name : String) :
    Option FsNode :=
  (children.find? (fun e => e.1 == name)).map (·.2)

/-- `Path.is_dir()` on a lookup result (a missing entry is not a dir). -/
def isDirNode : Option FsNode → Bool
  | some (FsNode.dir _) => true
  | _ => false

/-- The `Skill` dataclass. -/
structure Skill : Type where
  name : String
  path : String
  description : Option String
  helpers : List String
  warnings : List String
deriving DecidableEq

/-- `IGNORED_DIRS` from `build-router.py`. -/
def IGNORED_DIRS : List String :=
  ["_router", ".git", "__pycache__", "node_modules", ".venv", "venv", ".hatch"]

/-- `HELPER_DIRS` from `build-router.py` (a Python set; iteration order is
irrelevant because `find_helper_dirs` sorts its result). -/
def HELPER_DIRS : List String := ["scripts", "references", "assets"]

/-- Python's `s.startswith(pre)`. -/
def pyStartsWith (s pre : String) : Bool := leadsWith pre.data s.data

/-- `should_ignore` from `build-router.py` (applied to the entry name). -/
def should_ignore (name : String) : Bool :=
  IGNORED_DIRS.contains name || pyStartsWith name "."

/-- Lexicographic code-point comparison of character lists; Python's
`<=` on `str` values. -/
def strLeCore : List Char → List Char → Bool
  | [], _ => true
  | _ :: _, [] => false
  | a :: as, b :: bs =>
      if a.toNat = b.toNat then strLeCore as bs else decide (a.toNat < b.toNat)

/-- Python's `a <= b` on strings (lexicographic by code point). -/
def pyStrLe (a b : String) : Bool := strLeCore a.data b.data

/-- Insertion step of Python's stable `sorted(..., key=...)`; the new
element `x` (originally earlier) goes before the first strictly greater
key and before nothing smaller, which preserves stability. -/
def pyInsert {α : Type} (key : α → String) (x : α) : List α → List α
  | [] => [x]
  | y :: ys => if pyStrLe (key x) (key y) then x :: y :: ys else y :: pyInsert key x ys

/-- Python's `sorted(l, key=key)` (stable, ascending lexicographic on the
string key; `sorted(paths)` within one parent directory coincides with
sorting by entry name). -/
def pySorted {α : Type} (key : α → String) : List α → List α
  | [] => []
  | x :: xs => pyInsert key x (pySorted key xs)

/-- `find_helper_dirs` from `build-router.py`: recognized helper names that
exist as subdirectories, sorted. -/
def find_helper_dirs (children : List (String × FsNode)) : List String :=
  pySorted id (HELPER_DIRS.filter (fun helper => isDirNode (lookupChild children helper)))

/-- Python truthiness of `frontmatter.get(k)`: falsy when the key is
missing (`None`) or its value is the empty string. -/
def pyFalsy : Option String → Bool
  | none => true
  | some s => s = ""

/-- The warning recorded when the `name` field is missing or empty. -/
def missingNameWarning (dirName : String) : String :=
  "Missing 'name' in frontmatter, using folder name: " ++ dirName

/-- The warning recorded when the `description` field is missing or empty. -/
def missingDescriptionWarning : String :=
  "Missing 'description' in frontmatter"

/-- `find_skill_in_dir` from `build-router.py`.  `dirName` is
`dir_path.name`, `dirPath` is `str(dir_path)`, and `children` are the
directory's entries. -/
def find_skill_in_dir (dirName dirPath : String)
    (children : List (String × FsNode)) : Option Skill :=
  match lookupChild children "SKILL.md" with
  | some (FsNode.file content) =>
    let frontmatter := parse_frontmatter content
    let nameOpt := dictGet frontmatter "name"
    let name := if pyFalsy nameOpt then dirName else nameOpt.getD dirName
    let nameWarnings :=
      if pyFalsy nameOpt then [missingNameWarning dirName] else []
    let descriptionOpt := dictGet frontmatter "description"
    let descWarnings :=
      if pyFalsy descriptionOpt then [missingDescriptionWarning] else []
    some { name := name, path := dirPath, description := descriptionOpt,
           helpers := find_helper_dirs children,
           warnings := nameWarnings ++ descWarnings }
  | _ => none

/-- Body of the inner `for subitem in sorted(item.iterdir())` loop of
`scan_skills` (scanning a skill group one level down). -/
def scanInnerStep (rootPath groupName : String) (acc : List Skill)
    (subitem : String × FsNode) : List Skill :=
  match subitem.2 with
  | FsNode.file _ => acc
  | FsNode.dir subchildren =>
    if should_ignore subitem.1 then acc
    else
      match find_skill_in_dir subitem.1
          (rootPath ++ "/" ++ groupName ++ "/" ++ subitem.1) subchildren with
      | some skill => acc ++ [skill]
      | none => acc

/-- Body of the outer `for item in sorted(skills_dir.iterdir())` loop of
`scan_skills`. -/
def scanOuterStep (rootPath : String) (skills : List Skill)
    (item : String × FsNode) : List Skill :=
  match item.2 with
  | FsNode.file _ => skills
  | FsNode.dir children =>
    if should_ignore item.1 then skills
    else
      match find_skill_in_dir item.1 (rootPath ++ "/" ++ item.1) children with
      | some skill => skills ++ [skill]
      | none =>
        (pySorted Prod.fst children).foldl (scanInnerStep rootPath item.1) skills

/-- `scan_skills` from `build-router.py`.  `root = none` models a missing
root path and `root = some (FsNode.file _)` a non-directory root; both
fail the `skills_dir.is_dir()` check. -/
def scan_skills (rootPath : String) (root : Option FsNode) : List Skill :=
  match root with
  | some (FsNode.dir entries) =>
      (pySorted Prod.fst entries).foldl (scanOuterStep rootPath) []
  | _ => []

/-- Transcribed from the claim for the Tree Scanner: the direct child
directories in alphabetical order that survive the ignore filter, paired
with their entries. -/
def keptDirs (entries : List (String × FsNode)) :
    List (String × List (String × FsNode)) :=
  (pySorted Prod.fst entries).filterMap (fun e =>
    match e.2 with
    | FsNode.dir cs => if should_ignore e.1 then none else some (e.1, cs)
    | FsNode.file _ => none)

/-- Transcribed from the claim for the Tree Scanner: for each kept child
try the Locator; on success keep the record and do not descend; otherwise
apply the Locator to each kept grandchild.  Nothing deeper than two levels
below the root is examined. -/
def scanSkillsSpec (rootPath : String) (root : Option FsNode) : List Skill :=
  match root with
  | some (FsNode.dir entries) =>
    (keptDirs entries).flatMap (fun cd =>
      match find_skill_in_dir cd.1 (rootPath ++ "/" ++ cd.1) cd.2 with
      | some skill => [skill]
      | none =>
        (keptDirs cd.2).filterMap (fun sub =>
          find_skill_in_dir sub.1
            (rootPath ++ "/" ++ cd.1 ++ "/" ++ sub.1) sub.2))
  | _ => []

/-- One `log.warning(f"{skill.name}: {warning}")` plus `warning_count += 1`
of `validate_skills`; the pair is (count, emitted warning lines). -/
def warnStep (name : String) (acc : Nat × List String) (warning : String) :
    Nat × List String :=
  (acc.1 + 1, acc.2 ++ [name ++ ": " ++ warning])

/-- The per-skill loop of `validate_skills`. -/
def validateStep (acc : Nat × List String) (skill : Skill) :
    Nat × List String :=
  skill.warnings.foldl (warnStep skill.name) acc

/-- `validate_skills` from `build-router.py`; returns the warning count
together with the emitted log lines (the Python function logs them and
returns only the count). -/
def validate_skills (skills : List Skill) : Nat × List String :=
  skills.foldl validateStep (0, [])

/-- The duplicate-name warning of `check_conflicts`, including the
mis-encoded em dash present in the source string literal. -/
def conflictMsg (name path seenPath : String) : String :=
  "Conflict: skill '" ++ name ++ "' found at " ++ path ++
    " but already registered from " ++ seenPath ++ " â€” skipping"

/-- The loop of `check_conflicts`; `seen` is the `seen` dict (name to
path), and the result pairs the kept records with the emitted warnings. -/
def check_conflicts_go (seen : List (String × String)) :
    List Skill → List Skill × List String
  | [] => ([], [])
  | skill :: rest =>
    match dictGet seen skill.name with
    | some seenPath =>
      let r := check_conflicts_go seen rest
      (r.1, conflictMsg skill.name skill.path seenPath :: r.2)
    | none =>
      let r := check_conflicts_go (dictInsert seen skill.name skill.path) rest
      (skill :: r.1, r.2)

/-- `check_conflicts` from `build-router.py`; the second component is the
list of logged conflict warnings. -/
def check_conflicts (skills : List Skill) : List Skill × List String :=
  check_conflicts_go [] skills

/-- Python `str.replace` for a non-empty pattern: replace all
non-overlapping occurrences left to right.  The fuel (initialised to the
length of the list) only makes the recursion structural; it never runs out
because each step consumes at least one character. -/
def replaceFuel (pat rep : List Char) : Nat → List Char → List Char
  | _, [] => []
  | 0, l => l
  | Nat.succ fuel, c :: rest =>
    if leadsWith pat (c :: rest) then
      rep ++ replaceFuel pat rep fuel ((c :: rest).drop pat.length)
    else c :: replaceFuel pat rep fuel rest

/-- Python `"".join`-style interleaving for `str.replace` with an empty
pattern (`"ab".replace("", "X")` is `"XaXbX"`). -/
def replaceEmptyPat (rep : List Char) : List Char → List Char
  | [] => rep
  | c :: rest => rep ++ c :: replaceEmptyPat rep rest

/-- Python's `s.replace(old, new)` (all occurrences, not just a prefix). -/
def pyReplace (s old new : String) : String :=
  if old.data.isEmpty then (replaceEmptyPat new.data s.data).asString
  else (replaceFuel old.data new.data s.data.length s.data).asString

/-- `generate_router_content` from `build-router.py`; `home` stands for
`str(Path.home())`. -/
def generate_router_content (home : String) (skills : List Skill) : String :=
  String.intercalate "\n"
    (["# Skill Router", ""] ++
      (pySorted Skill.name skills).map
        (fun s => s.name ++ ": " ++ pyReplace s.path home "~" ++ "/") ++
      [""])

/-- The decision core of `main` after argument parsing: scans, applies the
empty-scan failure exit, deduplicates, validates, and dispatches on the
mode flags.  The second component is the completion message printed by the
`--validate` branch (`none` in every other mode, whose prints are not part
of this model).  Both `--dry-run` and the default write path exit 0. -/
def main_logic (skillsDirPath : String) (root : Option FsNode)
    (listFlag validateFlag _dryRun _backupFlag : Bool) : Nat × Option String :=
  let skills := scan_skills skillsDirPath root
  if skills.isEmpty then (1, none)
  else
    let skills2 := (check_conflicts skills).1
    let warning_count := (validate_skills skills2).1
    if listFlag then (0, none)
    else if validateFlag then
      if warning_count ≠ 0 then
        (1, some ("\nValidation completed with " ++ toString warning_count
                    ++ " warning(s)"))
      else (0, some "\nAll skills valid")
    else (0, none)

/-! ### Order lemmas for the embedded string comparison -/

lemma strLeCore_total : ∀ a b : List Char,
    strLeCore a b = false → strLeCore b a = true := by
  intro a
  induction a with
  | nil => intro b h; simp [strLeCore] at h
  | cons x xs ih =>
    intro b h
    cases b with
    | nil => simp [strLeCore]
    | cons y ys =>
      simp only [strLeCore] at h ⊢
      by_cases hxy : x.toNat = y.toNat
      · rw [if_pos hxy] at h
        rw [if_pos hxy.symm]
        exact ih ys h
      · rw [if_neg hxy] at h
        rw [if_neg (fun hh => hxy hh.symm)]
        simp only [decide_eq_false_iff_not] at h
        simp only [decide_eq_true_eq]
        omega

lemma strLeCore_trans : ∀ a b c : List Char,
    strLeCore a b = true → strLeCore b c = true → strLeCore a c = true := by
  intro a
  induction a with
  | nil => intro b c _ _; simp [strLeCore]
  | cons x xs ih =>
    intro b c hab hbc
    cases b with
    | nil => simp [strLeCore] at hab
    | cons y ys =>
      cases c with
      | nil => simp [strLeCore] at hbc
      | cons z zs =>
        simp only [strLeCore] at hab hbc ⊢
        by_cases h1 : x.toNat = y.toNat <;> by_cases h2 : y.toNat = z.toNat
        · rw [if_pos h1] at hab
          rw [if_pos h2] at hbc
          rw [if_pos (h1.trans h2)]
          exact ih ys zs hab hbc
        · rw [if_neg h2] at hbc
          simp only [decide_eq_true_eq] at hbc
          rw [if_neg (by omega : ¬ x.toNat = z.toNat)]
          simp only [decide_eq_true_eq]
          omega
        · rw [if_neg h1] at hab
          simp only [decide_eq_true_eq] at hab
          rw [if_neg (by omega : ¬ x.toNat = z.toNat)]
          simp only [decide_eq_true_eq]
          omega
        · rw [if_neg h1] at hab
          rw [if_neg h2] at hbc
          simp only [decide_eq_true_eq] at hab hbc
          rw [if_neg (by omega : ¬ x.toNat = z.toNat)]
          simp only [decide_eq_true_eq]
          omega

lemma pyStrLe_total (a b : String) (h : pyStrLe a b = false) : pyStrLe b a = true :=
  strLeCore_total a.data b.data h

lemma pyStrLe_trans {a b c : String} (hab : pyStrLe a b = true)
    (hbc : pyStrLe b c = true) : pyStrLe a c = true :=
  strLeCore_trans a.data b.data c.data hab hbc

/-! ### Lemmas about the embedded stable insertion sort -/

lemma mem_pyInsert {α : Type} (key : α → String) (x a : α) :
    ∀ l : List α, a ∈ pyInsert key x l ↔ a = x ∨ a ∈ l := by
  intro l
  induction l with
  | nil => simp [pyInsert]
  | cons y ys ih =>
    simp only [pyInsert]
    split
    · simp
    · simp only [List.mem_cons, ih]
      tauto

lemma mem_pySorted {α : Type} (key : α → String) (a : α) :
    ∀ l : List α, a ∈ pySorted key l ↔ a ∈ l := by
  intro l
  induction l with
  | nil => simp [pySorted]
  | cons y ys ih => simp [pySorted, mem_pyInsert, ih]

lemma pairwise_pyInsert {α : Type} (key : α → String) (x : α) :
    ∀ l : List α,
      l.Pairwise (fun a b => pyStrLe (key a) (key b) = true) →
      (pyInsert key x l).Pairwise (fun a b => pyStrLe (key a) (key b) = true) := by
  intro l
  induction l with
  | nil => simp [pyInsert]
  | cons y ys ih =>
    intro hl
    rcases List.pairwise_cons.mp hl with ⟨hy, hys⟩
    simp only [pyInsert]
    split
    · rename_i hxy
      refine List.pairwise_cons.mpr ⟨?_, hl⟩
      intro z hz
      rcases List.mem_cons.mp hz with rfl | hz'
      · exact hxy
      · exact pyStrLe_trans hxy (hy z hz')
    · rename_i hxy
      have hyx : pyStrLe (key y) (key x) = true :=
        pyStrLe_total _ _ (Bool.not_eq_true _ ▸ eq_false_of_ne_true hxy)
      refine List.pairwise_cons.mpr ⟨?_, ih hys⟩
      intro z hz
      rcases (mem_pyInsert key x z ys).mp hz with rfl | hz'
      · exact hyx
      · exact hy z hz'

lemma pairwise_pySorted {α : Type} (key : α → String) :
    ∀ l : List α,
      (pySorted key l).Pairwise (fun a b => pyStrLe (key a) (key b) = true) := by
  intro l
  induction l with
  | nil => simp [pySorted]
  | cons y ys ih => exact pairwise_pyInsert key y (pySorted key ys) ih

lemma nodup_pyInsert {α : Type} (key : α → String) (x : α) :
    ∀ l : List α, x ∉ l → l.Nodup → (pyInsert key x l).Nodup := by
  intro l
  induction l with
  | nil => simp [pyInsert]
  | cons y ys ih =>
    intro hx hl
    rcases List.nodup_cons.mp hl with ⟨hy, hys⟩
    simp only [pyInsert]
    split
    · exact List.nodup_cons.mpr ⟨hx, hl⟩
    · refine List.nodup_cons.mpr ⟨?_, ih (fun h => hx (List.mem_cons_of_mem y h)) hys⟩
      intro hmem
      rcases (mem_pyInsert key x y ys).mp hmem with rfl | h
      · exact hx (List.mem_cons_self _ _)
      · exact hy h

lemma nodup_pySorted {α : Type} (key : α → String) :
    ∀ l : List α, l.Nodup → (pySorted key l).Nodup := by
  intro l
  induction l with
  | nil => simp [pySorted]
  | cons y ys ih =>
    intro hl
    rcases List.nodup_cons.mp hl with ⟨hy, hys⟩
    exact nodup_pyInsert key y (pySorted key ys)
      (fun h => hy ((mem_pySorted key y ys).mp h)) (ih hys)

/-! ### Lemmas about `find_helper_dirs` -/

lemma find_helper_dirs_mem (children : List (String × FsNode)) (h : String) :
    h ∈ find_helper_dirs children
      ↔ h ∈ HELPER_DIRS ∧ isDirNode (lookupChild children h) = true := by
  unfold find_helper_dirs
  rw [mem_pySorted, List.mem_filter]

lemma find_helper_dirs_sorted (children : List (String × FsNode)) :
    (find_helper_dirs children).Pairwise (fun a b => pyStrLe a b = true) :=
  pairwise_pySorted id _

lemma find_helper_dirs_nodup (children : List (String × FsNode)) :
    (find_helper_dirs children).Nodup :=
  nodup_pySorted id _ (List.Nodup.filter _ (by decide))

/-- The fallback-name warning never coincides with the description
warning (they differ at the tenth character). -/
lemma warnings_ne (d : String) : missingNameWarning d ≠ missingDescriptionWarning := by
  intro h
  have hd : (missingNameWarning d).data = missingDescriptionWarning.data := by rw [h]
  rw [missingNameWarning, missingDescriptionWarning, String.data_append] at hd
  have h10 := congrArg (fun l => List.take 10 l) hd
  simp only at h10
  rw [List.take_append_of_le_length (by decide)] at h10
  exact absurd h10 (by decide)

/-- Claim C1 (amended): for every directory, if it contains no descriptor
file `SKILL.md` the Skill Locator returns no record; otherwise it returns
a record whose name is the frontmatter `name` value, or, when that field
is absent or its value is empty, the directory's own name together with a
warning recording the fallback; a warning is also recorded exactly when
`description` is absent or empty; and the record's helper list contains
exactly those of the recognized helper names (scripts, references,
assets) that exist as subdirectories, without duplicates and sorted
alphabetically. -/
theorem find_skill_in_dir_contract (dirName dirPath : String)
    (children : List (String × FsNode)) :
    ((∀ c, lookupChild children "SKILL.md" ≠ some (FsNode.file c)) →
        find_skill_in_dir dirName dirPath children = none)
    ∧ (∀ content, lookupChild children "SKILL.md" = some (FsNode.file content) →
        ∃ r, find_skill_in_dir dirName dirPath children = some r
          ∧ (∀ n, dictGet (parse_frontmatter content) "name" = some n → n ≠ "" →
              r.name = n ∧ missingNameWarning dirName ∉ r.warnings)
          ∧ (pyFalsy (dictGet (parse_frontmatter content) "name") = true →
              r.name = dirName ∧ missingNameWarning dirName ∈ r.warnings)
          ∧ (missingDescriptionWarning ∈ r.warnings
              ↔ pyFalsy (dictGet (parse_frontmatter content) "description") = true)
          ∧ r.helpers.Pairwise (fun a b => pyStrLe a b = true)
          ∧ r.helpers.Nodup
          ∧ (∀ h, h ∈ r.helpers
              ↔ h ∈ HELPER_DIRS ∧ isDirNode (lookupChild children h) = true)) := by
  constructor
  · intro hno
    unfold find_skill_in_dir
    cases he : lookupChild children "SKILL.md" with
    | none => rfl
    | some node =>
      cases node with
      | file c => exact absurd he (hno c)
      | dir cs => rfl
  · intro content hc
    unfold find_skill_in_dir
    rw [hc]
    refine ⟨_, rfl, ?_, ?_, ?_,
      find_helper_dirs_sorted children, find_helper_dirs_nodup children,
      find_helper_dirs_mem children⟩
    · intro n hn hne
      have hfal : pyFalsy (dictGet (parse_frontmatter content) "name") = false := by
        rw [hn]; simp [pyFalsy, hne]
      refine ⟨?_, ?_⟩
      · simp [hn, pyFalsy, hne]
      · simp only [hfal, Bool.false_eq_true, if_false, List.nil_append]
        split <;> simp [warnings_ne dirName]
    · intro hfal
      refine ⟨?_, ?_⟩ <;> simp [hfal]
    · cases hd : pyFalsy (dictGet (parse_frontmatter content) "description") with
      | false =>
        simp only [hd, Bool.false_eq_true, if_false, List.append_nil, iff_false]
        split <;> simp [Ne.symm (warnings_ne dirName)]
      | true =>
        simp [hd]

/-- Witness for the C1 theorem at a concrete skill directory. -/
theorem find_skill_in_dir_contract_witness :
    (find_skill_in_dir "alpha" "/r/alpha"
      [("SKILL.md", FsNode.file "---\nname: sk\n---\n"),
       ("scripts", FsNode.dir [])]).isSome = true := by
  obtain ⟨r, hr, -⟩ :=
    (find_skill_in_dir_contract "alpha" "/r/alpha"
      [("SKILL.md", FsNode.file "---\nname: sk\n---\n"),
       ("scripts", FsNode.dir [])]).2 "---\nname: sk\n---\n" rfl
  rw [hr]; rfl

/-- Counterexample to claim C1 as stated: a descriptor whose frontmatter
has a `name` key whose value is present but empty.  The claim as written
requires the record's name to be the frontmatter value (the empty
string) since the field is not absent, but the code falls back to the
directory's own name. -/
theorem find_skill_in_dir_empty_name_counterexample :
    dictGet (parse_frontmatter "---\nname:\ndescription: ok\n---\n") "name" = some ""
    ∧ (find_skill_in_dir "mydir" "/skills/mydir"
        [("SKILL.md", FsNode.file "---\nname:\ndescription: ok\n---\n")]).map Skill.name
      = some "mydir"
    ∧ ("mydir" : String) ≠ "" :=
  ⟨by decide, by decide, by decide⟩

/-- Claim C10: a present-but-empty `name` value is treated exactly like a
missing one (folder-name fallback plus warning), and a present-but-empty
`description` value still produces the missing-description warning. -/
theorem find_skill_in_dir_empty_fields_fallback (dirName dirPath content : String)
    (children : List (String × FsNode))
    (hfile : lookupChild children "SKILL.md" = some (FsNode.file content)) :
    (dictGet (parse_frontmatter content) "name" = some "" →
       ∃ r, find_skill_in_dir dirName dirPath children = some r
         ∧ r.name = dirName ∧ missingNameWarning dirName ∈ r.warnings)
    ∧ (dictGet (parse_frontmatter content) "description" = some "" →
       ∃ r, find_skill_in_dir dirName dirPath children = some r
         ∧ missingDescriptionWarning ∈ r.warnings) := by
  constructor
  · intro hname
    unfold find_skill_in_dir
    rw [hfile]
    refine ⟨_, rfl, ?_, ?_⟩ <;> simp [hname, pyFalsy]
  · intro hdesc
    unfold find_skill_in_dir
    rw [hfile]
    refine ⟨_, rfl, ?_⟩
    simp [hdesc, pyFalsy]

/-- Witness for the C10 theorem at a concrete directory whose descriptor
has empty `name` and `description` values. -/
theorem find_skill_in_dir_empty_fields_fallback_witness :
    ∃ r, find_skill_in_dir "beta" "/r/beta"
        [("SKILL.md", FsNode.file "---\nname:  \ndescription:\n---\n")] = some r
      ∧ r.name = "beta" ∧ missingNameWarning "beta" ∈ r.warnings :=
  (find_skill_in_dir_empty_fields_fallback "beta" "/r/beta"
      "---\nname:  \ndescription:\n---\n"
      [("SKILL.md", FsNode.file "---\nname:  \ndescription:\n---\n")] rfl).1
    (by decide)

/-! ### Lemmas about `takeWhile` used to locate the `\s*` run -/

lemma takeWhile_append_of_any (p : Char → Bool) :
    ∀ (B X : List Char), B.any (fun c => !p c) = true →
      (B ++ X).takeWhile p = B.takeWhile p := by
  intro B
  induction B with
  | nil => intro X h; simp at h
  | cons c cs ih =>
    intro X h
    by_cases hc : p c = true
    · have hcs : cs.any (fun c => !p c) = true := by
        simp only [List.any_cons, hc, Bool.not_true, Bool.false_or] at h
        exact h
      simp only [List.cons_append, List.takeWhile_cons, hc, if_true]
      rw [ih X hcs]
    · simp only [List.cons_append, List.takeWhile_cons,
        Bool.not_eq_true _ ▸ eq_false_of_ne_true hc, if_false]
      rfl

lemma takeWhile_elem (p : Char → Bool) :
    ∀ (l : List Char) (i : Nat), i < (l.takeWhile p).length →
      ∃ c, l[i]? = some c ∧ p c = true ∧ c ∈ l.takeWhile p := by
  intro l
  induction l with
  | nil => simp
  | cons c cs ih =>
    intro i hi
    by_cases hc : p c = true
    · rw [List.takeWhile_cons, if_pos hc] at hi ⊢
      cases i with
      | zero => exact ⟨c, by simp, hc, List.mem_cons_self _ _⟩
      | succ j =>
        obtain ⟨d, hd, hpd, hmem⟩ := ih j (by simpa using hi)
        exact ⟨d, by simpa using hd, hpd, List.mem_cons_of_mem c hmem⟩
    · rw [List.takeWhile_cons,
        if_neg (fun hh => hc hh)] at hi
      simp at hi

lemma after_takeWhile (p : Char → Bool) :
    ∀ l : List Char, (l.takeWhile p).length < l.length →
      ∃ c, l[(l.takeWhile p).length]? = some c ∧ p c = false := by
  intro l
  induction l with
  | nil => simp
  | cons c cs ih =>
    intro hl
    by_cases hc : p c = true
    · rw [List.takeWhile_cons, if_pos hc] at hl ⊢
      simp only [List.length_cons] at hl ⊢
      obtain ⟨d, hd, hpd⟩ := ih (by omega)
      exact ⟨d, by simpa using hd, hpd⟩
    · rw [List.takeWhile_cons, if_neg (fun hh => hc hh)]
      exact ⟨c, by simp, Bool.not_eq_true _ ▸ eq_false_of_ne_true hc⟩

lemma takeWhile_length_le (p : Char → Bool) :
    ∀ l : List Char, (l.takeWhile p).length ≤ l.length := by
  intro l
  induction l with
  | nil => simp
  | cons c cs ih =>
    rw [List.takeWhile_cons]
    split
    · simpa using ih
    · simp

lemma any_takeWhile_lt (p : Char → Bool) :
    ∀ l : List Char, l.any (fun c => !p c) = true →
      (l.takeWhile p).length < l.length := by
  intro l
  induction l with
  | nil => simp
  | cons c cs ih =>
    intro h
    by_cases hc : p c = true
    · have hcs : cs.any (fun c => !p c) = true := by
        simp only [List.any_cons, hc, Bool.not_true, Bool.false_or] at h
        exact h
      rw [List.takeWhile_cons, if_pos hc]
      simpa using ih hcs
    · rw [List.takeWhile_cons, if_neg (fun hh => hc hh)]
      simp

/-! ### Locating the closing `\n---` of the frontmatter regex -/

/-- A `\n---` occurrence cannot straddle the boundary between the body
and the closing delimiter (the delimiter's own leading newline breaks the
run of dashes), so an occurrence inside the appended list that starts
inside `D` is an occurrence inside `D` alone. -/
lemma nlDashes_junction : ∀ (D R : List Char), D ≠ [] →
    leadsWith nlDashes (D ++ '\n' :: '-' :: '-' :: '-' :: R) = true →
    leadsWith nlDashes D = true := by
  have e1 : (('-' : Char) == '\n') = false := rfl
  intro D R hne h
  match D with
  | [] => exact absurd rfl hne
  | [a] => simp [leadsWith, nlDashes, e1] at h
  | [a, b] => simp [leadsWith, nlDashes, e1] at h
  | [a, b, c] => simp [leadsWith, nlDashes, e1] at h
  | a :: b :: c :: d :: rest =>
    simp only [leadsWith, nlDashes, List.cons_append] at h ⊢
    exact h

/-- Under the no-interior-closer hypothesis, the first `\n---` occurrence
in `body ++ "\n---" ++ rest` sits exactly at the end of the body. -/
lemma occIdx_append_nlDashes : ∀ (B R : List Char),
    (∀ i, i < B.length → leadsWith nlDashes (B.drop i) = false) →
    occIdx nlDashes (B ++ '\n' :: '-' :: '-' :: '-' :: R) = some B.length := by
  intro B
  induction B with
  | nil =>
    intro R _
    simp [occIdx, leadsWith, nlDashes]
  | cons c cs ih =>
    intro R h
    have h0 : leadsWith nlDashes ((c :: cs) ++ '\n' :: '-' :: '-' :: '-' :: R) = false := by
      by_contra hcon
      have htrue := Bool.not_eq_false _ ▸ hcon
      have := nlDashes_junction (c :: cs) R (by simp) (by simpa using htrue)
      have hzero := h 0 (by simp)
      simp only [List.drop_zero] at hzero
      rw [this] at hzero
      cases hzero
    have hshift : ∀ i, i < cs.length → leadsWith nlDashes (cs.drop i) = false := by
      intro i hi
      have := h (i + 1) (by simpa using Nat.succ_lt_succ hi)
      simpa using this
    have h0' : leadsWith nlDashes
        (c :: (cs ++ '\n' :: '-' :: '-' :: '-' :: R)) = false := by
      simpa using h0
    simp only [List.cons_append, occIdx, List.append_eq, h0',
      Bool.false_eq_true, if_false]
    rw [ih R hshift]
    simp

/-- When every positive `\s*` length fails, the greedy backtracking lands
on the empty whitespace run. -/
lemma tryK_eq_tryAt_zero : ∀ (rest : List Char) (n : Nat),
    (∀ k, 1 ≤ k → k ≤ n → tryAt rest k = none) → tryK rest n = tryAt rest 0 := by
  intro rest n
  induction n with
  | zero => intro _; rfl
  | succ m ih =>
    intro h
    have hm : tryAt rest (m + 1) = none := h (m + 1) (by omega) (by omega)
    simp only [tryK, hm]
    exact ih (fun k hk1 hk2 => h k hk1 (by omega))

/-- Core of the positive direction of claim C5: on a well-formed fenced
descriptor the regex match extracts exactly the body `b`. -/
lemma fmMatch_wellFormed (b r : List Char)
    (h1 : ∀ i, i < b.length → leadsWith nlDashes (b.drop i) = false)
    (h2 : b.any (fun c => !isPySpace c) = true)
    (h3 : '\n' ∉ b.takeWhile isPySpace) :
    fmMatch ('-' :: '-' :: '-' :: '\n' :: (b ++ '\n' :: '-' :: '-' :: '-' :: r))
      = some b := by
  have hW : b.takeWhile isPySpace = (b ++ '\n' :: '-' :: '-' :: '-' :: r).takeWhile isPySpace :=
    (takeWhile_append_of_any isPySpace b _ h2).symm
  have hWlt : (b.takeWhile isPySpace).length < b.length := any_takeWhile_lt isPySpace b h2
  have hkfail : ∀ k, 1 ≤ k → k ≤ (b.takeWhile isPySpace).length + 1 →
      tryAt ('\n' :: (b ++ '\n' :: '-' :: '-' :: '-' :: r)) k = none := by
    intro k hk1 hk2
    unfold tryAt
    rw [if_neg ?_]
    obtain ⟨j, rfl⟩ : ∃ j, k = j + 1 := ⟨k - 1, by omega⟩
    have hget : ('\n' :: (b ++ '\n' :: '-' :: '-' :: '-' :: r))[j + 1]?
        = (b ++ '\n' :: '-' :: '-' :: '-' :: r)[j]? := by
      simp
    rw [hget]
    rcases Nat.lt_or_ge j (b.takeWhile isPySpace).length with hlt | hge
    · obtain ⟨c, hc, hpc, hmem⟩ := takeWhile_elem isPySpace b j hlt
      rw [List.getElem?_append, if_pos (by omega), hc]
      intro hcon
      apply h3
      rw [(Option.some_inj.mp hcon : c = '\n')] at hmem
      exact hmem
    · have hje : j = (b.takeWhile isPySpace).length := by omega
      obtain ⟨c, hc, hpc⟩ := after_takeWhile isPySpace b hWlt
      rw [List.getElem?_append, if_pos (by omega), hje, hc]
      intro hcon
      rw [(Option.some_inj.mp hcon : c = '\n')] at hpc
      cases hpc
  have hlead : leadsWith dashes3
      ('-' :: '-' :: '-' :: '\n' :: (b ++ '\n' :: '-' :: '-' :: '-' :: r)) = true := rfl
  unfold fmMatch
  rw [if_pos hlead]
  have hdrop3 : ('-' :: '-' :: '-' :: '\n' ::
      (b ++ '\n' :: '-' :: '-' :: '-' :: r)).drop 3
      = '\n' :: (b ++ '\n' :: '-' :: '-' :: '-' :: r) := rfl
  rw [hdrop3]
  have htw : ('\n' :: (b ++ '\n' :: '-' :: '-' :: '-' :: r)).takeWhile isPySpace
      = '\n' :: b.takeWhile isPySpace := by
    rw [List.takeWhile_cons, if_pos (by rfl : isPySpace '\n' = true), ← hW]
  rw [htw]
  simp only [List.length_cons]
  rw [tryK_eq_tryAt_zero _ _ hkfail]
  have h0 : ('\n' :: (b ++ '\n' :: '-' :: '-' :: '-' :: r))[0]? = some '\n' := by simp
  unfold tryAt
  rw [if_pos h0]
  have hdrop1 : ('\n' :: (b ++ '\n' :: '-' :: '-' :: '-' :: r)).drop 1
      = b ++ '\n' :: '-' :: '-' :: '-' :: r := rfl
  rw [hdrop1, occIdx_append_nlDashes b r h1]
  show some ((b ++ '\n' :: '-' :: '-' :: '-' :: r).take b.length) = some b
  rw [List.take_left]

/-- Claim C5 (amended): if the input text is a `---` line, a body whose
lines never put the delimiter right after a newline, whose first line is
not whitespace-only (`\n` free whitespace head) and which is not entirely
whitespace, then a line beginning with the same delimiter, the Metadata
Parser returns the mapping obtained by splitting each body line at its
first colon into a trimmed key and trimmed value, ignoring lines without
a colon (`frontmatterOfBody`); and a text that does not begin with the
delimiter yields the empty mapping. -/
theorem parse_frontmatter_fenced_contract :
    (∀ content : String, leadsWith dashes3 content.data = false →
        parse_frontmatter content = [])
    ∧ (∀ B R : String,
        (∀ i, i < B.data.length → leadsWith nlDashes (B.data.drop i) = false) →
        B.data.any (fun c => !isPySpace c) = true →
        '\n' ∉ B.data.takeWhile isPySpace →
        parse_frontmatter ("---\n" ++ B ++ "\n---" ++ R)
          = frontmatterOfBody B.data) := by
  constructor
  · intro content h
    unfold parse_frontmatter fmMatch
    rw [h]
    rfl
  · intro B R h1 h2 h3
    have hdata : ("---\n" ++ B ++ "\n---" ++ R).data
        = '-' :: '-' :: '-' :: '\n' :: (B.data ++ '\n' :: '-' :: '-' :: '-' :: R.data) := by
      simp only [String.data_append, List.append_assoc]
      rfl
    unfold parse_frontmatter
    rw [hdata, fmMatch_wellFormed B.data R.data h1 h2 h3]

/-- Witness for the C5 theorem: one text with no leading delimiter, and
one well-formed fenced text whose body is extracted verbatim. -/
theorem parse_frontmatter_fenced_contract_witness :
    parse_frontmatter "hello" = []
    ∧ parse_frontmatter ("---\n" ++ "a: b" ++ "\n---" ++ "\nrest")
        = frontmatterOfBody ("a: b").data :=
  ⟨parse_frontmatter_fenced_contract.1 "hello" (by decide),
   parse_frontmatter_fenced_contract.2 "a: b" "\nrest"
     (by decide) (by decide) (by decide)⟩

/-- Counterexample to claim C5 as stated: in `"---\na: b\n---xyz"` no line
contains only the delimiter after the opening one, so per the claim no
fenced block starts the text and the result should be the empty mapping;
the code accepts `---xyz` as a closer and returns a non-empty mapping. -/
theorem parse_frontmatter_loose_closing_counterexample :
    parse_frontmatter "---\na: b\n---xyz" = [("a", "b")]
    ∧ ([("a", "b")] : List (String × String)) ≠ [] :=
  ⟨by decide, by decide⟩

/-! ### Rewriting the scanner's folds into filterMap / flatMap form -/

lemma scanInner_fold_eq (rootPath groupName : String) :
    ∀ (M : List (String × FsNode)) (acc : List Skill),
      M.foldl (scanInnerStep rootPath groupName) acc
        = acc ++ M.filterMap (fun sub =>
            match sub.2 with
            | FsNode.dir sc =>
              if should_ignore sub.1 then none
              else find_skill_in_dir sub.1
                (rootPath ++ "/" ++ groupName ++ "/" ++ sub.1) sc
            | FsNode.file _ => none) := by
  intro M
  induction M with
  | nil => intro acc; simp
  | cons e M' ih =>
    intro acc
    rcases e with ⟨n, node⟩
    cases node with
    | file c =>
      simp only [List.foldl_cons, scanInnerStep, List.filterMap_cons]
      exact ih acc
    | dir sc =>
      simp only [List.foldl_cons, scanInnerStep, List.filterMap_cons]
      by_cases hig : should_ignore n = true
      · simp only [hig, if_true]
        exact ih acc
      · simp only [eq_false_of_ne_true hig, Bool.false_eq_true, if_false]
        cases hf : find_skill_in_dir n (rootPath ++ "/" ++ groupName ++ "/" ++ n) sc with
        | none => exact ih acc
        | some sk =>
          rw [ih (acc ++ [sk])]
          simp

lemma scanOuter_fold_eq (rootPath : String) :
    ∀ (L : List (String × FsNode)) (acc : List Skill),
      L.foldl (scanOuterStep rootPath) acc
        = acc ++ L.flatMap (fun item =>
            match item.2 with
            | FsNode.file _ => []
            | FsNode.dir children =>
              if should_ignore item.1 then []
              else
                match find_skill_in_dir item.1 (rootPath ++ "/" ++ item.1) children with
                | some skill => [skill]
                | none =>
                  (pySorted Prod.fst children).filterMap (fun sub =>
                    match sub.2 with
                    | FsNode.dir sc =>
                      if should_ignore sub.1 then none
                      else find_skill_in_dir sub.1
                        (rootPath ++ "/" ++ item.1 ++ "/" ++ sub.1) sc
                    | FsNode.file _ => none)) := by
  intro L
  induction L with
  | nil => intro acc; simp
  | cons e L' ih =>
    intro acc
    rcases e with ⟨n, node⟩
    cases node with
    | file c =>
      simp only [List.foldl_cons, scanOuterStep, List.flatMap_cons]
      rw [ih acc]
      simp
    | dir ch =>
      simp only [List.foldl_cons, scanOuterStep, List.flatMap_cons]
      by_cases hig : should_ignore n = true
      · simp only [hig, if_true]
        rw [ih acc]
        simp
      · simp only [eq_false_of_ne_true hig, Bool.false_eq_true, if_false]
        cases hf : find_skill_in_dir n (rootPath ++ "/" ++ n) ch with
        | some sk =>
          rw [ih (acc ++ [sk])]
          simp
        | none =>
          rw [scanInner_fold_eq rootPath n (pySorted Prod.fst ch) acc, ih]
          simp

lemma flatMap_filterMap_eq {α β γ : Type} (f : α → Option β) (g : β → List γ) :
    ∀ l : List α, (l.filterMap f).flatMap g
      = l.flatMap (fun x => match f x with | some y => g y | none => []) := by
  intro l
  induction l with
  | nil => rfl
  | cons a l' ih =>
    rw [List.filterMap_cons, List.flatMap_cons]
    cases hf : f a with
    | none =>
      simp only [hf]
      rw [ih]
      simp
    | some y =>
      simp only [hf, List.flatMap_cons]
      rw [ih]

/-- Claim C2: the Tree Scanner equals its specification: empty result when
the root is missing or not a directory; otherwise, for each non-ignored
direct child directory in alphabetical order, the Locator's record is kept
without descending, or else the Locator is applied to the child's own
non-ignored direct child directories; nothing deeper is examined (the
specification's shape makes a third level syntactically unreachable). -/
theorem scan_skills_matches_spec (rootPath : String) :
    (∀ root, scan_skills rootPath root = scanSkillsSpec rootPath root)
    ∧ scan_skills rootPath none = []
    ∧ (∀ c, scan_skills rootPath (some (FsNode.file c)) = []) := by
  refine ⟨?_, rfl, fun c => rfl⟩
  intro root
  cases root with
  | none => rfl
  | some node =>
    cases node with
    | file c => rfl
    | dir entries =>
      show (pySorted Prod.fst entries).foldl (scanOuterStep rootPath) []
        = (keptDirs entries).flatMap _
      rw [scanOuter_fold_eq rootPath (pySorted Prod.fst entries) [], List.nil_append]
      unfold keptDirs
      rw [flatMap_filterMap_eq]
      congr 1
      funext item
      rcases item with ⟨n, node⟩
      cases node with
      | file c => rfl
      | dir ch =>
        by_cases hig : should_ignore n = true
        · simp [hig]
        · simp only [eq_false_of_ne_true hig, Bool.false_eq_true, if_false]
          cases hf : find_skill_in_dir n (rootPath ++ "/" ++ n) ch with
          | some sk => rfl
          | none =>
            show (pySorted Prod.fst ch).filterMap _
              = (keptDirs ch).filterMap _
            unfold keptDirs
            rw [List.filterMap_filterMap]
            congr 1
            funext sub
            rcases sub with ⟨m, snode⟩
            cases snode with
            | file c2 => rfl
            | dir sc =>
              by_cases hig2 : should_ignore m = true
              · simp [hig2]
              · simp [eq_false_of_ne_true hig2]

/-! ### Dictionary lemmas for the `seen` map of the Conflict Resolver -/

lemma dictGet_dictInsert_self {α : Type} (k : String) (v : α) :
    ∀ d : List (String × α), dictGet (dictInsert d k v) k = some v := by
  intro d
  induction d with
  | nil => simp [dictGet, dictInsert]
  | cons e rest ih =>
    rcases e with ⟨k₀, v₀⟩
    by_cases hk : k₀ = k
    · subst hk
      simp [dictGet, dictInsert]
    · simp only [dictInsert, hk, if_false]
      simp only [dictGet, List.find?_cons] at ih ⊢
      have : (k₀ == k) = false := by simpa using hk
      rw [this]
      exact ih

lemma dictGet_dictInsert_ne {α : Type} (k n : String) (v : α) (hne : n ≠ k) :
    ∀ d : List (String × α), dictGet (dictInsert d k v) n = dictGet d n := by
  have hkn : (k == n) = false := by simpa using fun h => hne h.symm
  intro d
  induction d with
  | nil => simp [dictInsert, dictGet, hkn]
  | cons e rest ih =>
    rcases e with ⟨k₀, v₀⟩
    by_cases hk : k₀ = k
    · subst hk
      simp [dictInsert, dictGet, List.find?_cons, hkn]
    · simp only [dictInsert, hk, if_false]
      simp only [dictGet, List.find?_cons] at ih ⊢
      cases hb : (k₀ == n) with
      | true => rfl
      | false => exact ih

/-! ### Invariants of the Conflict Resolver loop -/

lemma check_conflicts_go_sublist :
    ∀ (l : List Skill) (seen : List (String × String)),
      (check_conflicts_go seen l).1.Sublist l := by
  intro l
  induction l with
  | nil => intro seen; simp [check_conflicts_go]
  | cons t rest ih =>
    intro seen
    simp only [check_conflicts_go]
    cases hs : dictGet seen t.name with
    | some p => exact List.Sublist.cons t (ih seen)
    | none => exact List.Sublist.cons₂ t (ih _)

lemma check_conflicts_go_length :
    ∀ (l : List Skill) (seen : List (String × String)),
      (check_conflicts_go seen l).1.length + (check_conflicts_go seen l).2.length
        = l.length := by
  intro l
  induction l with
  | nil => intro seen; simp [check_conflicts_go]
  | cons t rest ih =>
    intro seen
    simp only [check_conflicts_go]
    cases hs : dictGet seen t.name with
    | some p =>
      have := ih seen
      simp only [List.length_cons]
      omega
    | none =>
      have := ih (dictInsert seen t.name t.path)
      simp only [List.length_cons]
      omega

lemma check_conflicts_go_not_seen :
    ∀ (l : List Skill) (seen : List (String × String)) (s : Skill),
      s ∈ (check_conflicts_go seen l).1 → dictGet seen s.name = none := by
  intro l
  induction l with
  | nil => intro seen s h; simp [check_conflicts_go] at h
  | cons t rest ih =>
    intro seen s h
    simp only [check_conflicts_go] at h
    cases hs : dictGet seen t.name with
    | some p =>
      rw [hs] at h
      exact ih seen s h
    | none =>
      rw [hs] at h
      rcases List.mem_cons.mp h with rfl | hmem
      · exact hs
      · have h' := ih (dictInsert seen t.name t.path) s hmem
        by_cases hn : s.name = t.name
        · rw [hn, dictGet_dictInsert_self] at h'
          cases h'
        · rw [dictGet_dictInsert_ne t.name s.name t.path hn] at h'
          exact h'

lemma check_conflicts_go_nodup :
    ∀ (l : List Skill) (seen : List (String × String)),
      ((check_conflicts_go seen l).1.map Skill.name).Nodup := by
  intro l
  induction l with
  | nil => intro seen; simp [check_conflicts_go]
  | cons t rest ih =>
    intro seen
    simp only [check_conflicts_go]
    cases hs : dictGet seen t.name with
    | some p => exact ih seen
    | none =>
      simp only [List.map_cons, List.nodup_cons]
      refine ⟨?_, ih _⟩
      intro hmem
      rcases List.mem_map.mp hmem with ⟨s, hsmem, hname⟩
      have h' := check_conflicts_go_not_seen rest (dictInsert seen t.name t.path) s hsmem
      rw [hname, dictGet_dictInsert_self] at h'
      cases h'

lemma check_conflicts_go_find_seen :
    ∀ (l : List Skill) (seen : List (String × String)) (n : String) (p : String),
      dictGet seen n = some p →
      (check_conflicts_go seen l).1.find? (fun s => s.name == n) = none := by
  intro l
  induction l with
  | nil => intro seen n p _; simp [check_conflicts_go]
  | cons t rest ih =>
    intro seen n p hp
    simp only [check_conflicts_go]
    cases hs : dictGet seen t.name with
    | some q => exact ih seen n p hp
    | none =>
      have hne : t.name ≠ n := by
        intro he
        rw [he, hp] at hs
        cases hs
      simp only [List.find?_cons]
      have hb : (t.name == n) = false := by simpa using hne
      rw [hb]
      exact ih (dictInsert seen t.name t.path) n p
        (by rw [dictGet_dictInsert_ne t.name n t.path (fun h => hne h.symm)]; exact hp)

lemma check_conflicts_go_find_unseen :
    ∀ (l : List Skill) (seen : List (String × String)) (n : String),
      dictGet seen n = none →
      (check_conflicts_go seen l).1.find? (fun s => s.name == n)
        = l.find? (fun s => s.name == n) := by
  intro l
  induction l with
  | nil => intro seen n _; simp [check_conflicts_go]
  | cons t rest ih =>
    intro seen n hn
    simp only [check_conflicts_go]
    cases hs : dictGet seen t.name with
    | some q =>
      have hne : t.name ≠ n := by
        intro he
        rw [he, hn] at hs
        cases hs
      have hb : (t.name == n) = false := by simpa using hne
      simp only [List.find?_cons, hb]
      exact ih seen n hn
    | none =>
      by_cases he : t.name = n
      · have hb : (t.name == n) = true := by simpa using he
        simp only [List.find?_cons, hb]
      · have hb : (t.name == n) = false := by simpa using he
        simp only [List.find?_cons, hb]
        exact ih (dictInsert seen t.name t.path) n
          (by rw [dictGet_dictInsert_ne t.name n t.path (Ne.symm he)]; exact hn)

/-! ### Folds of the Validator -/

lemma warnStep_fold (name : String) :
    ∀ (ws : List String) (acc : Nat × List String),
      ws.foldl (warnStep name) acc
        = (acc.1 + ws.length, acc.2 ++ ws.map (fun w => name ++ ": " ++ w)) := by
  intro ws
  induction ws with
  | nil => intro acc; simp
  | cons w ws' ih =>
    intro acc
    rw [List.foldl_cons, ih]
    simp only [warnStep, List.map_cons, List.length_cons, Prod.mk.injEq]
    constructor
    · omega
    · simp

lemma validate_fold :
    ∀ (skills : List Skill) (acc : Nat × List String),
      skills.foldl validateStep acc
        = (acc.1 + (skills.map (fun s => s.warnings.length)).sum,
           acc.2 ++ skills.flatMap (fun s => s.warnings.map (fun w => s.name ++ ": " ++ w))) := by
  intro skills
  induction skills with
  | nil => intro acc; simp
  | cons s rest ih =>
    intro acc
    rw [List.foldl_cons]
    show List.foldl validateStep (s.warnings.foldl (warnStep s.name) acc) rest = _
    rw [warnStep_fold s.name s.warnings acc, ih]
    simp only [List.map_cons, List.sum_cons, List.flatMap_cons, Prod.mk.injEq]
    constructor
    · omega
    · simp

/-- Claim C3: the Conflict Resolver returns a subsequence of its input
(so discovery order is preserved and every kept record is an input
record), with pairwise distinct names; for every name the first kept
record is the first input record with that name (and names absent from
the input stay absent); and it emits exactly one conflict warning per
dropped record (kept plus warnings account for the whole input). -/
theorem check_conflicts_first_wins (l : List Skill) :
    (check_conflicts l).1.Sublist l
    ∧ ((check_conflicts l).1.map Skill.name).Nodup
    ∧ (∀ n, (check_conflicts l).1.find? (fun s => s.name == n)
        = l.find? (fun s => s.name == n))
    ∧ (check_conflicts l).1.length + (check_conflicts l).2.length = l.length :=
  ⟨check_conflicts_go_sublist l [],
   check_conflicts_go_nodup l [],
   fun n => check_conflicts_go_find_unseen l [] n rfl,
   check_conflicts_go_length l []⟩

/-- Claim C7: the Validator's count is the sum of the lengths of the
records' warning lists, and it emits exactly the records' own warnings,
each prefixed with the record's name, in order. -/
theorem validate_skills_counts_warnings (skills : List Skill) :
    (validate_skills skills).1 = (skills.map (fun s => s.warnings.length)).sum
    ∧ (validate_skills skills).2
        = skills.flatMap (fun s => s.warnings.map (fun w => s.name ++ ": " ++ w)) := by
  unfold validate_skills
  rw [validate_fold]
  simp

/-- Claim C8: deduplication only filters — the Conflict Resolver's output
is a subsequence of the input and every kept record is literally one of
the input records, so all of its fields (name, path, description,
helpers, warnings) are unchanged and no conflict diagnostic is added to
any record; the Validator takes the records and returns only a count and
log lines, leaving the list untouched. -/
theorem resolver_validator_preserve_records (l : List Skill) :
    (check_conflicts l).1.Sublist l
    ∧ (∀ s, s ∈ (check_conflicts l).1 →
        ∃ t, t ∈ l ∧ s.name = t.name ∧ s.path = t.path
          ∧ s.description = t.description ∧ s.helpers = t.helpers
          ∧ s.warnings = t.warnings) := by
  refine ⟨check_conflicts_go_sublist l [], ?_⟩
  intro s hs
  exact ⟨s, (check_conflicts_go_sublist l []).mem hs, rfl, rfl, rfl, rfl, rfl⟩

/-- Witness for the C8 theorem at a concrete record list. -/
theorem resolver_validator_preserve_records_witness :
    ∃ t, t ∈ [({ name := "a", path := "/p", description := none,
                 helpers := [], warnings := ["w"] } : Skill)]
      ∧ ({ name := "a", path := "/p", description := none,
           helpers := [], warnings := ["w"] } : Skill).name = t.name
      ∧ ({ name := "a", path := "/p", description := none,
           helpers := [], warnings := ["w"] } : Skill).path = t.path
      ∧ ({ name := "a", path := "/p", description := none,
           helpers := [], warnings := ["w"] } : Skill).description = t.description
      ∧ ({ name := "a", path := "/p", description := none,
           helpers := [], warnings := ["w"] } : Skill).helpers = t.helpers
      ∧ ({ name := "a", path := "/p", description := none,
           helpers := [], warnings := ["w"] } : Skill).warnings = t.warnings :=
  (resolver_validator_preserve_records
      [{ name := "a", path := "/p", description := none,
         helpers := [], warnings := ["w"] }]).2
    { name := "a", path := "/p", description := none,
      helpers := [], warnings := ["w"] } (by decide)

/-- Claim C9: parsing is deterministic — two applications of the Metadata
Parser to the same well-formed fenced text yield identical mappings (the
embedding is a pure function, so this holds definitionally). -/
theorem parse_frontmatter_deterministic :
    ∀ content : String, (fmMatch content.data).isSome = true →
      parse_frontmatter content = parse_frontmatter content :=
  fun _ _ => rfl

/-- Witness for the C9 theorem at a concrete fenced text. -/
theorem parse_frontmatter_deterministic_witness :
    parse_frontmatter "---\na: b\n---\n" = parse_frontmatter "---\na: b\n---\n" :=
  parse_frontmatter_deterministic "---\na: b\n---\n" (by decide)

/-- Claim C6: the top-level flow signals failure (exit 1) exactly when the
scan finds no records at all, or when validation-only is requested (the
`--validate` flag without `--list`) and at least one warning exists; in
the latter case it also prints the warning count. -/
theorem main_exit_code_contract (p : String) (root : Option FsNode)
    (listFlag validateFlag dryRun backupFlag : Bool) :
    ((main_logic p root listFlag validateFlag dryRun backupFlag).1 ≠ 0
      ↔ (scan_skills p root = []
          ∨ (listFlag = false ∧ validateFlag = true
             ∧ (validate_skills (check_conflicts (scan_skills p root)).1).1 ≠ 0)))
    ∧ (scan_skills p root ≠ [] → listFlag = false → validateFlag = true →
        (validate_skills (check_conflicts (scan_skills p root)).1).1 ≠ 0 →
        main_logic p root listFlag validateFlag dryRun backupFlag
          = (1, some ("\nValidation completed with "
              ++ toString (validate_skills (check_conflicts (scan_skills p root)).1).1
              ++ " warning(s)"))) := by
  by_cases hs : scan_skills p root = []
  · constructor
    · simp [main_logic, hs]
    · intro hcon
      exact absurd hs hcon
  · cases listFlag with
    | true =>
      constructor
      · simp [main_logic, hs]
      · intro _ hl
        cases hl
    | false =>
      cases validateFlag with
      | false =>
        constructor
        · simp [main_logic, hs]
        · intro _ _ hv
          cases hv
      | true =>
        by_cases hw : (validate_skills (check_conflicts (scan_skills p root)).1).1 = 0
        · constructor
          · simp [main_logic, hs, hw]
          · intro _ _ _ hcon
            exact absurd hw hcon
        · constructor
          · simp [main_logic, hs, hw]
          · intro _ _ _ _
            simp [main_logic, hs, hw]

/-- Witness for the C6 theorem on a tree with one skill missing its
description: validation-only mode exits 1 and prints one warning. -/
theorem main_exit_code_contract_witness :
    main_logic "/r" (some (FsNode.dir
        [("alpha", FsNode.dir [("SKILL.md", FsNode.file "---\nname: alpha\n---\n")])]))
      false true false false
    = (1, some ("\nValidation completed with "
        ++ toString (validate_skills (check_conflicts (scan_skills "/r"
            (some (FsNode.dir [("alpha", FsNode.dir
              [("SKILL.md", FsNode.file "---\nname: alpha\n---\n")])])))).1).1
        ++ " warning(s)")) :=
  (main_exit_code_contract "/r" (some (FsNode.dir
      [("alpha", FsNode.dir [("SKILL.md", FsNode.file "---\nname: alpha\n---\n")])]))
    false true false false).2 (by decide) rfl rfl (by decide)

/-- Claim C4 (code-bug evidence): the Index Generator substitutes the home
shorthand by global string replacement, so a record whose path does not
begin with the home prefix but merely contains it mid-path still gets
rewritten, contradicting the claimed substitute-only-on-prefix contract
(and the source comment's stated intent of a home-directory shorthand). -/
theorem generate_router_content_replaces_mid_path :
    pyStartsWith "/srv/home/u/skills/a" "/home/u" = false
    ∧ generate_router_content "/home/u"
        [{ name := "a", path := "/srv/home/u/skills/a", description := none,
           helpers := [], warnings := [] }]
      = "# Skill Router\n\na: /srv~/skills/a/\n" :=
  ⟨by decide, by decide⟩

/-! ### Concrete evaluations cross-checked against the Python program

Each of the following evaluations was checked against the behaviour of
`build-router.py` itself (same inputs, same outputs), validating the
embedding on ordinary and edge-case inputs. -/

example : parse_frontmatter "---\nname: x\n---\n" = [("name", "x")] := by decide
example : parse_frontmatter "hello" = [] := by decide
example : parse_frontmatter "---\na: b\n---xyz" = [("a", "b")] := by decide
example : parse_frontmatter "---\nname: x\ndescription:\n---\n"
    = [("name", "x"), ("description", "")] := by decide
example : parse_frontmatter "---\n\n--- \na: b\n---\n" = [("a", "b")] := by decide
example : parse_frontmatter "---\na: 1\n---b: 2\n---\n" = [("a", "1")] := by decide
example : parse_frontmatter "---\nnocolon\nk:  v  \n---" = [("k", "v")] := by decide
example : parse_frontmatter "---\n\n---" = [] := by decide
example : parse_frontmatter "--- \t\na: b\n---" = [("a", "b")] := by decide
example : parse_frontmatter "---\n   \n---\nx: y\n---" = [("x", "y")] := by decide
example : parse_frontmatter "---\na: b:c\n---" = [("a", "b:c")] := by decide
example : parse_frontmatter "---x\na: b\n---" = [] := by decide
example : parse_frontmatter "----\na: b\n---" = [] := by decide
example : parse_frontmatter "---\r\na: b\r\n---\r\n" = [("a", "b")] := by decide
example : parse_frontmatter "---\na: b" = [] := by decide
example : parse_frontmatter "---\n\x1f: v\n---" = [("", "v")] := by decide
example : parse_frontmatter "---\n\x1f\n---x: y\n---" = [("---x", "y")] := by decide

example :
    find_skill_in_dir "alpha" "/r/alpha"
      [("SKILL.md", FsNode.file "---\nname: sk\ndescription: d\n---\n"),
       ("scripts", FsNode.dir []), ("assets", FsNode.dir []),
       ("notes", FsNode.file "")]
    = some { name := "sk", path := "/r/alpha", description := some "d",
             helpers := ["assets", "scripts"], warnings := [] } := by decide

example :
    find_skill_in_dir "alpha" "/r/alpha" [("SKILL.md", FsNode.file "junk")]
    = some { name := "alpha", path := "/r/alpha", description := none,
             helpers := [],
             warnings := [missingNameWarning "alpha",
                          missingDescriptionWarning] } := by decide

example : find_skill_in_dir "alpha" "/r/alpha" [("SKILL.md", FsNode.dir [])] = none := by
  decide

example :
    scan_skills "/r" (some (FsNode.dir
      [("beta", FsNode.dir [("x", FsNode.dir [("SKILL.md", FsNode.file "---\nname: x\ndescription: d\n---\n")])]),
       (".git", FsNode.dir [("y", FsNode.dir [("SKILL.md", FsNode.file "---\nname: y\n---\n")])]),
       ("alpha", FsNode.dir [("SKILL.md", FsNode.file "---\nname: a\ndescription: d\n---\n")])]))
    = [{ name := "a", path := "/r/alpha", description := some "d",
         helpers := [], warnings := [] },
       { name := "x", path := "/r/beta/x", description := some "d",
         helpers := [], warnings := [] }] := by decide

example :
    check_conflicts
      [{ name := "a", path := "/p1", description := none, helpers := [], warnings := [] },
       { name := "a", path := "/p2", description := none, helpers := [], warnings := [] },
       { name := "b", path := "/p3", description := none, helpers := [], warnings := [] }]
    = ([{ name := "a", path := "/p1", description := none, helpers := [], warnings := [] },
        { name := "b", path := "/p3", description := none, helpers := [], warnings := [] }],
       [conflictMsg "a" "/p2" "/p1"]) := by decide

example :
    validate_skills
      [{ name := "a", path := "/p", description := none, helpers := [],
         warnings := ["w1", "w2"] }]
    = (2, ["a: w1", "a: w2"]) := by decide

example : pyReplace "/root/.agents/skills/root" "/root" "~" = "~/.agents/skills~" := by
  decide

example :
    generate_router_content "/home/u"
      [{ name := "b", path := "/home/u/s/b", description := none, helpers := [], warnings := [] },
       { name := "a", path := "/srv/home/u/s/a", description := none, helpers := [], warnings := [] }]
    = "# Skill Router\n\na: /srv~/s/a/\nb: ~/s/b/\n" := by decide

example :
    main_logic "/r" (some (FsNode.dir
      [("alpha", FsNode.dir [("SKILL.md", FsNode.file "---\nname: alpha\n---\n")])]))
      false true false false
    = (1, some "\nValidation completed with 1 warning(s)") := by decide

example : main_logic "/r" none false false false false = (1, none) := by decide

example :
    scanSkillsSpec "/r" (some (FsNode.dir
      [("beta", FsNode.dir [("x", FsNode.dir [("SKILL.md", FsNode.file "---\nname: x\ndescription: d\n---\n")])]),
       ("alpha", FsNode.dir [("SKILL.md", FsNode.file "---\nname: a\ndescription: d\n---\n")])]))
    = scan_skills "/r" (some (FsNode.dir
      [("beta", FsNode.dir [("x", FsNode.dir [("SKILL.md", FsNode.file "---\nname: x\ndescription: d\n---\n")])]),
       ("alpha", FsNode.dir [("SKILL.md", FsNode.file "---\nname: a\ndescription: d\n---\n")])])) := by decide
